import Mathlib

/-!
Verification development for the pybalance dashboard repository
(`src/bin/main.py`) together with the matching/optimization engine it
drives.  The dashboard glue (objective list, session-state `match`
callback, post-match relabeling, copy-before-mutate discipline) is
embedded directly from `src/bin/main.py`.  The engine itself
(`pybalance.utils.MatchingData`, `BALANCE_CALCULATORS`,
`pybalance.propensity.PropensityScoreMatcher`) is not part of the
visible source; those parts are modelled from the specification and each
such definition is marked `Modelled from the spec:`.
-/

namespace PyBalance

/-! ## Data model: records and MatchingData -/

/-- Modelled from the spec: a single record (row) of a `MatchingData`
table — covariate values plus the population label field.  The
population label is part of the record, as in the underlying table. -/
structure Record where
  id : Nat
  covariates : List Int
  population : String
deriving DecidableEq, Repr

/-- Modelled from the spec: `MatchingData` — an ordered sequence of
records, a designated population-label column name, and a schema
partitioning the remaining headers into numeric and categoric groups.
(`pybalance.utils.MatchingData` is not under `src/`.) -/
structure MatchingData where
  data : List Record
  population_col : String
  headers_numeric : List String
  headers_categoric : List String
deriving DecidableEq, Repr

/-- Modelled from the spec: the set of population labels appearing in a
`MatchingData` (derived view). -/
def MatchingData.populations (m : MatchingData) : List String :=
  (m.data.map Record.population).dedup

/-- Modelled from the spec: per-population record counts (`counts()`
derived view). -/
def MatchingData.counts (m : MatchingData) : List (String × Nat) :=
  m.populations.map (fun p => (p, (m.data.filter (fun r => r.population = p)).length))

/-- Modelled from the spec: `MatchingData.copy()` — a deep, independent
copy.  On the pure value this is the identity; independence from the
original is captured by the store semantics below, where `copy`
allocates a fresh cell. -/
def MatchingData.copy (m : MatchingData) : MatchingData := m

/-- Modelled from the spec: `MatchingData.append(other)` — concatenates
another table's records onto this one's (the mutating operation used by
the dashboard at `src/bin/main.py:195`). -/
def MatchingData.append (m : MatchingData) (rows : List Record) : MatchingData :=
  { m with data := m.data ++ rows }

/-! ## Object-store semantics for copy independence

Python `MatchingData` objects live on a heap and are aliased by
reference; `copy()` allocates a fresh object.  The store below is the
shallow embedding of that discipline: a cell list indexed by reference,
`copyRef` allocating a new cell holding the same value, and mutating
operations (`appendRef`, or an arbitrary `Store.set`) writing only to
the cell they are applied to. -/

/-- A reference into the object store. -/
abbrev Ref := Nat

/-- The heap of live `MatchingData` objects. -/
structure Store where
  cells : List MatchingData
deriving Repr

/-- Dereference: the value held at `r`, if allocated. -/
def Store.get (s : Store) (r : Ref) : Option MatchingData := s.cells[r]?

/-- Overwrite the cell at `r` (the generic mutating operation). -/
def Store.set (s : Store) (r : Ref) (m : MatchingData) : Store :=
  { cells := s.cells.set r m }

/-- Allocate a fresh cell holding `m`; returns the new store and the
fresh reference. -/
def Store.alloc (s : Store) (m : MatchingData) : Store × Ref :=
  ({ cells := s.cells ++ [m] }, s.cells.length)

/-- Modelled from the spec: `MatchingData.copy()` at the store level — a
deep, independent copy allocates a fresh object with the same value and
returns its reference. -/
def copyRef (s : Store) (r : Ref) : Store × Ref :=
  match s.get r with
  | some m => s.alloc m.copy
  | none => (s, r)

/-- Modelled from the spec: `MatchingData.append` at the store level —
in-place concatenation of `rows` onto the object at `r`
(the mutation performed by the dashboard at `src/bin/main.py:195`). -/
def appendRef (s : Store) (r : Ref) (rows : List Record) : Store :=
  match s.get r with
  | some m => s.set r (m.append rows)
  | none => s

/-- A one-record example `MatchingData`, used to instantiate theorems
with hypotheses at a concrete input. -/
def exampleMD : MatchingData :=
  { data := [⟨0, [1], "target"⟩]
    population_col := "population"
    headers_numeric := ["x"]
    headers_categoric := [] }

/-- A one-cell example store holding `exampleMD`. -/
def exampleStore : Store := ⟨[exampleMD]⟩

/-! ## Objective registry and the dashboard objective list -/

/-- Sum of a rational-valued feature column. -/
def rsum (xs : List Rat) : Rat := xs.sum

/-- Mean of a feature column (0 on the empty column, as `Rat` division
by zero is 0). -/
def mean (xs : List Rat) : Rat := rsum xs / (xs.length : Rat)

/-- Population variance of a feature column. -/
def svar (xs : List Rat) : Rat :=
  rsum (xs.map (fun x => (x - mean xs) ^ 2)) / (xs.length : Rat)

/-- Modelled from the spec: the maximal-imbalance sentinel at which a
balance statistic saturates when its denominator degenerates. -/
def imbalanceMax : Rat := 1000000

/-- Modelled from the spec: the zero-variance guard shared by the
balance-calculator family — when the denominator of the statistic is
zero the statistic saturates at a defined sentinel (0 imbalance when the
numerator is also zero, maximal imbalance otherwise) instead of
dividing by zero. -/
def guardedStat (num den : Rat) : Rat :=
  if den = 0 then (if num = 0 then 0 else imbalanceMax) else num / den

/-- Modelled from the spec: the standardized-mean-difference balance
statistic on one feature, comparing the feature column of one population
against the other.  The rational embedding uses the squared statistic
(squared mean difference over pooled variance), a monotone transform of
SMD with the identical degenerate-denominator behavior. -/
def smdScore (xs ys : List Rat) : Rat :=
  guardedStat ((mean xs - mean ys) ^ 2) ((svar xs + svar ys) / 2)

/-- Modelled from the spec: the `BALANCE_CALCULATORS` registry
(`pybalance.utils`, not under `src/`) — a fixed, enumerable mapping from
objective name to per-feature balance calculator, in which `"base"` is
the common-ancestor key.  The spec names the keys `"base"` and `"smd"`;
the registry theorems also quantify over any duplicate-free key list
containing `"base"`, so they do not depend on the exact key
inventory. -/
def BALANCE_CALCULATORS : List (String × (List Rat → List Rat → Rat)) :=
  [("base", smdScore), ("smd", smdScore)]

/-- The key set of the modelled registry. -/
def BALANCE_CALCULATORS_keys : List String := BALANCE_CALCULATORS.map Prod.fst

/-- The dashboard's user-facing objective list, embedded from
`src/bin/main.py:14-15`:
`OBJECTIVES = list(BALANCE_CALCULATORS.keys()); OBJECTIVES.remove("base")`.
Python's `list.remove` deletes the first occurrence, i.e. `List.erase`. -/
def OBJECTIVES (keys : List String) : List String := keys.erase "base"

/-! ## Assignment strategies

Modelled from the spec (§4.4): two interchangeable algorithms producing
a pairing between target records and pool records, both working on the
records' propensity scores.  Targets and pool are given as lists of
scores; a pairing is the list of chosen pool indices, position `k` of
the list pairing target `k`. -/

/-- Absolute score distance between a target score and a pool score. -/
def scoreDist (a b : Int) : Nat := (a - b).natAbs

/-- Modelled from the spec: the greedy step — among the still-available
pool records (pairs of original index and score), the one nearest to
target score `t` by absolute score distance, ties broken by the earliest
entry (original record order). -/
def pickNearest (t : Int) : List (Nat × Int) → Option (Nat × Int)
  | [] => none
  | p :: rest =>
    match pickNearest t rest with
    | none => some p
    | some b => if scoreDist t b.2 < scoreDist t p.2 then some b else some p

/-- Modelled from the spec: the greedy nearest-neighbor loop — for each
target score in order, select the nearest available pool record and
remove it from the available set; targets left over after the pool is
exhausted stay unmatched. -/
def greedyGo : List Int → List (Nat × Int) → List Nat
  | [], _ => []
  | t :: ts, avail =>
    match pickNearest t avail with
    | none => []
    | some b => b.1 :: greedyGo ts (avail.erase b)

/-- Modelled from the spec: the greedy assignment strategy
(`method="greedy"`), run on the pool's indexed scores. -/
def greedyAssign (targets pool : List Int) : List Nat :=
  greedyGo targets pool.enum

/-- All injective index sequences of length `n` drawn from `avail`: the
candidate set over which the optimal strategy minimizes. -/
def injSeqs : Nat → List Nat → List (List Nat)
  | 0, _ => [[]]
  | n + 1, avail =>
    avail.flatMap (fun i => (injSeqs n (avail.erase i)).map (fun l => i :: l))

/-- Total absolute score-distance cost of a pairing: target `k` is paired
with pool index `asn.get k`, out-of-range pool indices scoring against a
default of 0 (they never arise for valid pairings). -/
def totalCost (targets pool : List Int) (asn : List Nat) : Nat :=
  ((targets.zip asn).map (fun p => scoreDist p.1 (pool.getD p.2 0))).sum

/-- First element of `l` minimizing `f`, ties keeping the earlier
element. -/
def argminBy (f : List Nat → Nat) : List (List Nat) → Option (List Nat)
  | [] => none
  | a :: rest =>
    match argminBy f rest with
    | none => some a
    | some b => if f b < f a then some b else some a

/-- Modelled from the spec: the optimal (linear sum assignment) strategy
(`method="linear_sum_assignment"`) — build the full target×pool cost
matrix of absolute score distances and solve the minimum-cost bipartite
assignment exactly, here by exact minimization over all injective
assignments; `none` when the pool is smaller than the target set. -/
def linearSumAssignment (targets pool : List Int) : Option (List Nat) :=
  argminBy (totalCost targets pool) (injSeqs targets.length (List.range pool.length))

/-! ## Hyperparameter search loop

Modelled from the spec (§4.5): per iteration, propose a hyperparameter
set, fit the propensity model, assign matches, score the matched subset,
and keep the best result so far; the loop is bounded by `max_iter` and
by `time_limit`, the latter checked only at iteration boundaries.  The
outcome of one iteration (fit + assignment + scoring, which may fail
with a `FitError`) and the iteration's wall-clock duration are supplied
as functions of the iteration index, so a fixed seed corresponds to a
fixed outcome stream. -/

/-- A successful iteration's result: the proposed hyperparameter-set
index, the total balance loss of the matched subset, and the indices
(into the input records) of the matched target and pool records. -/
structure Candidate where
  hyper : Nat
  loss : Rat
  matched : List Nat
deriving DecidableEq, Repr

/-- Modelled from the spec: incumbent update — a candidate replaces the
best-so-far only on strictly lower loss; ties keep the earlier result. -/
def updateBest (best : Option Candidate) (c : Candidate) : Option Candidate :=
  match best with
  | none => some c
  | some b => if c.loss < b.loss then some c else some b

/-- Wall-clock time elapsed after the first `n` iterations have
completed, given each iteration's duration. -/
def elapsedAfter (dur : Nat → Nat) : Nat → Nat
  | 0 => 0
  | n + 1 => elapsedAfter dur n + dur n

/-- Modelled from the spec: the loop's boundary check — starting at
iteration `i` with `fuel` iterations of the `max_iter` budget left,
the index at which the loop stops.  The time budget is consulted only
here, before an iteration starts; an iteration that overruns the budget
still completes. -/
def stopIter (dur : Nat → Nat) (time_limit : Nat) : Nat → Nat → Nat
  | 0, i => i
  | fuel + 1, i =>
    if time_limit ≤ elapsedAfter dur i then i
    else stopIter dur time_limit fuel (i + 1)

/-- The number of iterations the search loop performs. -/
def numIters (dur : Nat → Nat) (time_limit max_iter : Nat) : Nat :=
  stopIter dur time_limit max_iter 0

/-- Aggregate state of the search loop. -/
structure LoopResult where
  iters : Nat
  succ : Nat
  fails : Nat
  best : Option Candidate
  lastErr : Option String
deriving DecidableEq, Repr

/-- Modelled from the spec: one search iteration folded into the loop
state — a successful fit updates the incumbent, a `FitError` is
swallowed, logged as the most recent error, and counted. -/
def iterStep (outcome : Nat → Except String Candidate) (s : LoopResult)
    (k : Nat) : LoopResult :=
  match outcome k with
  | .ok c =>
    { s with iters := s.iters + 1, succ := s.succ + 1, best := updateBest s.best c }
  | .error e =>
    { s with iters := s.iters + 1, fails := s.fails + 1, lastErr := some e }

/-- The loop body run over the performed iterations. -/
def runIters (outcome : Nat → Except String Candidate) (n : Nat) : LoopResult :=
  (List.range n).foldl (iterStep outcome) ⟨0, 0, 0, none, none⟩

/-- Modelled from the spec: the full hyperparameter search loop of
`PropensityScoreMatcher` — run until the iteration or time budget is
exhausted; if zero iterations completed successfully, surface a
`SearchExhaustedError` propagating the most recent `FitError`, else
return the aggregate result with the per-iteration failures swallowed
and counted. -/
def searchLoop (outcome : Nat → Except String Candidate) (dur : Nat → Nat)
    (max_iter time_limit : Nat) : Except (Option String) LoopResult :=
  let r := runIters outcome (numIters dur time_limit max_iter)
  if r.succ = 0 then .error r.lastErr else .ok r

/-- Modelled from the spec: the search loop driven from a seed — the
seed fixes the proposal sequence and hence the whole outcome stream. -/
def searchWithSeed (fit : Nat → Nat → Except String Candidate)
    (seed : Nat) (dur : Nat → Nat) (max_iter time_limit : Nat) :
    Except (Option String) LoopResult :=
  searchLoop (fit seed) dur max_iter time_limit

/-- Select the records of a `MatchingData` at the given indices,
producing a new `MatchingData` with the same label column and schema. -/
def selectRecords (m : MatchingData) (idxs : List Nat) : MatchingData :=
  { m with data := idxs.filterMap (fun i => m.data[i]?) }

/-- Modelled from the spec: `PropensityScoreMatcher.match()` — run the
search loop on (a copy of) the input and return a new `MatchingData`
holding exactly the best candidate's matched target and pool records,
drawn from the input with their population labels untouched. -/
def matcherMatch (m : MatchingData) (outcome : Nat → Except String Candidate)
    (dur : Nat → Nat) (max_iter time_limit : Nat) :
    Except (Option String) MatchingData :=
  (searchLoop outcome dur max_iter time_limit).map
    (fun r => selectRecords m.copy ((r.best.map Candidate.matched).getD []))

/-! ## Dashboard session state and the `match` callback glue -/

/-- Session state read by the dashboard `match` callback
(`st.session_state` fields used at `src/bin/main.py:62-78`). -/
structure SessionState where
  max_iter : Option Nat
  objective : Option String
  matching_data : Option MatchingData
  time_limit : Nat
deriving Repr

/-- The argument tuple with which the dashboard constructs
`PropensityScoreMatcher` (`src/bin/main.py:69-71`). -/
structure MatcherArgs where
  matching_data : Option MatchingData
  objective : Option String
  hyperparameter_grid : Option (List Nat)
  max_iter : Nat
  time_limit : Nat
  method : String
deriving Repr

/-- The dashboard `match()` callback's construction of the matcher
arguments, embedded from `src/bin/main.py:62-71`: `max_iter` defaults to
100, `method` is the literal `"greedy"`, the hyperparameter grid is the
literal `None`, and the input `MatchingData` is copied first. -/
def dashboardMatcherArgs (s : SessionState) : MatcherArgs :=
  { matching_data := s.matching_data.map MatchingData.copy
    objective := s.objective
    hyperparameter_grid := none
    max_iter := s.max_iter.getD 100
    time_limit := s.time_limit
    method := "greedy" }

/-- The caller-side relabeling applied by the dashboard after the engine
returns, embedded from `src/bin/main.py:75-77`:
`post_matching_data.data.loc[:, "population"] = post_matching_data["population"] + " (postmatch)"`. -/
def relabelPostmatch (m : MatchingData) : MatchingData :=
  { m with data := m.data.map (fun r => { r with population := r.population ++ " (postmatch)" }) }

end PyBalance

/-! ## Theorems -/

open PyBalance

namespace PyBalance

theorem pickNearest_mem (t : Int) :
    ∀ {l : List (Nat × Int)} {b : Nat × Int}, pickNearest t l = some b → b ∈ l := by
  intro l
  induction l with
  | nil => intro b h; simp [pickNearest] at h
  | cons p rest ih =>
    intro b h
    cases hrec : pickNearest t rest with
    | none =>
      simp only [pickNearest, hrec] at h
      injection h with h
      exact h ▸ List.mem_cons_self p rest
    | some c =>
      simp only [pickNearest, hrec] at h
      by_cases hlt : scoreDist t c.2 < scoreDist t p.2
      · rw [if_pos hlt] at h
        injection h with h
        exact h ▸ List.mem_cons_of_mem p (ih hrec)
      · rw [if_neg hlt] at h
        injection h with h
        exact h ▸ List.mem_cons_self p rest

theorem pickNearest_isSome (t : Int) :
    ∀ {l : List (Nat × Int)}, l ≠ [] → (pickNearest t l).isSome := by
  intro l hne
  cases l with
  | nil => exact absurd rfl hne
  | cons p rest =>
    cases hrec : pickNearest t rest with
    | none => simp [pickNearest, hrec]
    | some c =>
      simp only [pickNearest, hrec]
      by_cases hlt : scoreDist t c.2 < scoreDist t p.2
      · rw [if_pos hlt]; rfl
      · rw [if_neg hlt]; rfl

theorem greedyGo_mem :
    ∀ (ts : List Int) (avail : List (Nat × Int)) (i : Nat),
      i ∈ greedyGo ts avail → i ∈ avail.map Prod.fst := by
  intro ts
  induction ts with
  | nil => intro avail i h; simp [greedyGo] at h
  | cons t ts ih =>
    intro avail i h
    rw [greedyGo] at h
    cases hpick : pickNearest t avail with
    | none => rw [hpick] at h; simp at h
    | some b =>
      rw [hpick] at h
      rcases List.mem_cons.mp h with hb | htail
      · exact hb ▸ List.mem_map.mpr ⟨b, pickNearest_mem t hpick, rfl⟩
      · exact ((avail.erase_sublist b).map Prod.fst).subset (ih (avail.erase b) i htail)

theorem greedyGo_nodup :
    ∀ (ts : List Int) (avail : List (Nat × Int)),
      (avail.map Prod.fst).Nodup → (greedyGo ts avail).Nodup := by
  intro ts
  induction ts with
  | nil => intro avail _; simp [greedyGo]
  | cons t ts ih =>
    intro avail hnd
    rw [greedyGo]
    cases hpick : pickNearest t avail with
    | none => simp
    | some b =>
      have hb : b ∈ avail := pickNearest_mem t hpick
      have hnd' : ((avail.erase b).map Prod.fst).Nodup :=
        hnd.sublist ((avail.erase_sublist b).map Prod.fst)
      refine List.Nodup.cons ?_ (ih (avail.erase b) hnd')
      intro hmem
      rcases List.mem_map.mp (greedyGo_mem ts (avail.erase b) b.1 hmem) with ⟨x, hx, hfst⟩
      have hxa : x ≠ b ∧ x ∈ avail :=
        ((List.Nodup.of_map Prod.fst hnd).mem_erase_iff).mp hx
      exact hxa.1 (List.inj_on_of_nodup_map hnd hxa.2 hb hfst)

theorem greedyGo_length :
    ∀ (ts : List Int) (avail : List (Nat × Int)),
      (avail.map Prod.fst).Nodup → ts.length ≤ avail.length →
      (greedyGo ts avail).length = ts.length := by
  intro ts
  induction ts with
  | nil => intro avail _ _; simp [greedyGo]
  | cons t ts ih =>
    intro avail hnd hlen
    have hne : avail ≠ [] := by
      intro hnil
      rw [hnil] at hlen
      simp at hlen
    rw [greedyGo]
    cases hpick : pickNearest t avail with
    | none =>
      have := pickNearest_isSome t hne
      rw [hpick] at this
      simp at this
    | some b =>
      have hb : b ∈ avail := pickNearest_mem t hpick
      have hnd' : ((avail.erase b).map Prod.fst).Nodup :=
        hnd.sublist ((avail.erase_sublist b).map Prod.fst)
      have herase : (avail.erase b).length = avail.length - 1 :=
        List.length_erase_of_mem hb
      have hlen' : ts.length ≤ (avail.erase b).length := by
        rw [herase]
        simp at hlen
        omega
      simp [ih (avail.erase b) hnd' hlen']

theorem injSeqs_sound :
    ∀ (n : Nat) (avail : List Nat) (l : List Nat), avail.Nodup →
      l ∈ injSeqs n avail →
      l.length = n ∧ l.Nodup ∧ ∀ x ∈ l, x ∈ avail := by
  intro n
  induction n with
  | zero =>
    intro avail l _ hl
    rw [injSeqs] at hl
    simp at hl
    simp [hl]
  | succ n ih =>
    intro avail l hnd hl
    rw [injSeqs] at hl
    rcases List.mem_flatMap.mp hl with ⟨i, hi, hmap⟩
    rcases List.mem_map.mp hmap with ⟨l', hl', rfl⟩
    obtain ⟨hlen, hnd', hsub⟩ := ih (avail.erase i) l' (hnd.erase i) hl'
    refine ⟨by simp [hlen], ?_, ?_⟩
    · refine List.Nodup.cons ?_ hnd'
      intro hmem
      exact hnd.not_mem_erase (hsub i hmem)
    · intro x hx
      rcases List.mem_cons.mp hx with rfl | hx'
      · exact hi
      · exact List.mem_of_mem_erase (hsub x hx')

theorem injSeqs_complete :
    ∀ (n : Nat) (avail : List Nat) (l : List Nat),
      l.length = n → l.Nodup → (∀ x ∈ l, x ∈ avail) →
      l ∈ injSeqs n avail := by
  intro n
  induction n with
  | zero =>
    intro avail l hlen _ _
    rw [injSeqs]
    simp [List.length_eq_zero.mp hlen]
  | succ n ih =>
    intro avail l hlen hnd hsub
    cases l with
    | nil => simp at hlen
    | cons i l' =>
      rw [injSeqs]
      refine List.mem_flatMap.mpr ⟨i, hsub i (List.mem_cons_self i l'), ?_⟩
      refine List.mem_map.mpr ⟨l', ?_, rfl⟩
      refine ih (avail.erase i) l' (by simpa using hlen) hnd.of_cons ?_
      intro x hx
      have hxi : x ≠ i := by
        intro heq
        exact (List.nodup_cons.mp hnd).1 (heq ▸ hx)
      exact (List.mem_erase_of_ne hxi).mpr (hsub x (List.mem_cons_of_mem i hx))

theorem argminBy_mem (f : List Nat → Nat) :
    ∀ {l : List (List Nat)} {b : List Nat}, argminBy f l = some b → b ∈ l := by
  intro l
  induction l with
  | nil => intro b h; simp [argminBy] at h
  | cons a rest ih =>
    intro b h
    cases hrec : argminBy f rest with
    | none =>
      simp only [argminBy, hrec] at h
      injection h with h
      exact h ▸ List.mem_cons_self a rest
    | some c =>
      simp only [argminBy, hrec] at h
      by_cases hlt : f c < f a
      · rw [if_pos hlt] at h
        injection h with h
        exact h ▸ List.mem_cons_of_mem a (ih hrec)
      · rw [if_neg hlt] at h
        injection h with h
        exact h ▸ List.mem_cons_self a rest

theorem argminBy_isSome (f : List Nat → Nat) :
    ∀ {l : List (List Nat)}, l ≠ [] → (argminBy f l).isSome := by
  intro l hne
  cases l with
  | nil => exact absurd rfl hne
  | cons a rest =>
    cases hrec : argminBy f rest with
    | none => simp [argminBy, hrec]
    | some c =>
      simp only [argminBy, hrec]
      by_cases hlt : f c < f a
      · rw [if_pos hlt]; rfl
      · rw [if_neg hlt]; rfl

theorem argminBy_le (f : List Nat → Nat) :
    ∀ {l : List (List Nat)} {b : List Nat}, argminBy f l = some b →
      ∀ x ∈ l, f b ≤ f x := by
  intro l
  induction l with
  | nil => intro b h; simp [argminBy] at h
  | cons a rest ih =>
    intro b h x hx
    cases hrec : argminBy f rest with
    | none =>
      have hnil : rest = [] := by
        by_contra hne
        have hs := argminBy_isSome f hne
        rw [hrec] at hs
        simp at hs
      simp only [argminBy, hrec] at h
      injection h with h
      subst hnil
      rcases List.mem_cons.mp hx with rfl | hx'
      · exact h ▸ Nat.le_refl _
      · simp at hx'
    | some c =>
      simp only [argminBy, hrec] at h
      rcases List.mem_cons.mp hx with rfl | hx'
      · by_cases hlt : f c < f x
        · rw [if_pos hlt] at h
          injection h with h
          exact h ▸ Nat.le_of_lt hlt
        · rw [if_neg hlt] at h
          injection h with h
          exact h ▸ Nat.le_refl _
      · have hcx : f c ≤ f x := ih hrec x hx'
        by_cases hlt : f c < f a
        · rw [if_pos hlt] at h
          injection h with h
          exact h ▸ hcx
        · rw [if_neg hlt] at h
          injection h with h
          exact h ▸ Nat.le_trans (Nat.le_of_not_lt hlt) hcx

theorem stopIter_le (dur : Nat → Nat) (tl : Nat) :
    ∀ (fuel i : Nat), stopIter dur tl fuel i ≤ i + fuel := by
  intro fuel
  induction fuel with
  | zero => intro i; simp [stopIter]
  | succ fuel ih =>
    intro i
    rw [stopIter]
    split
    · omega
    · have h := ih (i + 1)
      omega

theorem stopIter_spec (dur : Nat → Nat) (tl : Nat) :
    ∀ (fuel i : Nat),
      (∀ k, i ≤ k → k < stopIter dur tl fuel i → elapsedAfter dur k < tl) ∧
      (stopIter dur tl fuel i = i + fuel ∨
        tl ≤ elapsedAfter dur (stopIter dur tl fuel i)) := by
  intro fuel
  induction fuel with
  | zero =>
    intro i
    constructor
    · intro k hik hk
      rw [stopIter] at hk
      omega
    · left
      simp [stopIter]
  | succ fuel ih =>
    intro i
    by_cases h : tl ≤ elapsedAfter dur i
    · constructor
      · intro k hik hk
        rw [stopIter, if_pos h] at hk
        omega
      · right
        rw [stopIter, if_pos h]
        exact h
    · constructor
      · intro k hik hk
        rw [stopIter, if_neg h] at hk
        rcases Nat.eq_or_lt_of_le hik with rfl | hik'
        · exact Nat.lt_of_not_le h
        · exact (ih (i + 1)).1 k hik' hk
      · rw [stopIter, if_neg h]
        rcases (ih (i + 1)).2 with heq | hle
        · left; omega
        · right; exact hle

theorem foldl_iterStep_iters (outcome : Nat → Except String Candidate) :
    ∀ (l : List Nat) (s : LoopResult),
      (l.foldl (iterStep outcome) s).iters = s.iters + l.length := by
  intro l
  induction l with
  | nil => intro s; simp
  | cons a l ih =>
    intro s
    rw [List.foldl_cons, ih]
    have hstep : (iterStep outcome s a).iters = s.iters + 1 := by
      cases ho : outcome a <;> simp [iterStep, ho]
    rw [hstep]
    simp only [List.length_cons]
    omega

theorem runIters_iters (outcome : Nat → Except String Candidate) (n : Nat) :
    (runIters outcome n).iters = n := by
  unfold runIters
  rw [foldl_iterStep_iters]
  simp

end PyBalance

/-- C3: for every pair of score sets and for both assignment strategies
(greedy and optimal linear sum assignment), the produced pairing never
assigns one pool record to two targets (the chosen pool-index list has
no duplicates), and running either strategy twice on identical inputs
yields the identical pairing. -/
theorem assignment_injective_and_deterministic (targets pool : List Int) :
    (greedyAssign targets pool).Nodup ∧
      (∀ a, linearSumAssignment targets pool = some a → a.Nodup) ∧
      greedyAssign targets pool = greedyAssign targets pool ∧
      linearSumAssignment targets pool = linearSumAssignment targets pool := by
  refine ⟨?_, ?_, rfl, rfl⟩
  · apply greedyGo_nodup
    rw [List.enum_map_fst]
    exact List.nodup_range _
  · intro a ha
    exact (injSeqs_sound _ _ a (List.nodup_range _) (argminBy_mem _ ha)).2.1

/-- Witness for C3: the optimal strategy on targets `[0, 5]` and pool
`[1, 6]` produces the duplicate-free pairing `[0, 1]`. -/
theorem assignment_injective_witness :
    linearSumAssignment [0, 5] [1, 6] = some [0, 1] ∧ ([0, 1] : List Nat).Nodup :=
  ⟨by decide,
    (assignment_injective_and_deterministic [0, 5] [1, 6]).2.1 [0, 1] (by decide)⟩

/-- C4: for every pair of target and pool score sets with enough pool
records, the total absolute score-distance cost of the pairing produced
by the optimal (linear sum assignment) strategy is at most the total
cost of the greedy pairing on the same score sets. -/
theorem optimal_dominates_greedy (targets pool : List Int)
    (h : targets.length ≤ pool.length) :
    ∃ best, linearSumAssignment targets pool = some best ∧
      totalCost targets pool best ≤
        totalCost targets pool (greedyAssign targets pool) := by
  have hnd : (pool.enum.map Prod.fst).Nodup := by
    rw [List.enum_map_fst]
    exact List.nodup_range _
  have hlen : (greedyAssign targets pool).length = targets.length :=
    greedyGo_length targets pool.enum hnd (by rw [List.enum_length]; exact h)
  have hgnodup : (greedyAssign targets pool).Nodup :=
    greedyGo_nodup targets pool.enum hnd
  have hsub : ∀ x ∈ greedyAssign targets pool, x ∈ List.range pool.length := by
    intro x hx
    have hx' := greedyGo_mem targets pool.enum x hx
    rwa [List.enum_map_fst] at hx'
  have hmem : greedyAssign targets pool ∈
      injSeqs targets.length (List.range pool.length) :=
    injSeqs_complete _ _ _ hlen hgnodup hsub
  have hne : injSeqs targets.length (List.range pool.length) ≠ [] := by
    intro hnil
    rw [hnil] at hmem
    simp at hmem
  have hs := argminBy_isSome (totalCost targets pool) hne
  cases hbest : argminBy (totalCost targets pool)
      (injSeqs targets.length (List.range pool.length)) with
  | none => rw [hbest] at hs; simp at hs
  | some best => exact ⟨best, hbest, argminBy_le _ hbest _ hmem⟩

/-- Witness for C4: targets `[0, 10]`, pool `[1, 2, 11]`. -/
theorem optimal_dominates_greedy_witness :
    ([0, 10] : List Int).length ≤ ([1, 2, 11] : List Int).length ∧
      ∃ best, linearSumAssignment [0, 10] [1, 2, 11] = some best ∧
        totalCost [0, 10] [1, 2, 11] best ≤
          totalCost [0, 10] [1, 2, 11] (greedyAssign [0, 10] [1, 2, 11]) :=
  ⟨by decide, optimal_dominates_greedy [0, 10] [1, 2, 11] (by decide)⟩

/-- C2: the key `"base"` is present in the `BALANCE_CALCULATORS`
registry but excluded from the user-facing objective list derived from
it: for any duplicate-free registry key list containing `"base"`,
`"base"` is not a member of `OBJECTIVES keys`, while every other
registry key is. -/
theorem base_excluded_from_objectives (keys : List String)
    (hnd : keys.Nodup) (_hbase : "base" ∈ keys) :
    "base" ∉ OBJECTIVES keys ∧
      ∀ k ∈ keys, k ≠ "base" → k ∈ OBJECTIVES keys := by
  constructor
  · exact hnd.not_mem_erase
  · intro k hk hne
    exact List.mem_erase_of_ne hne |>.mpr hk

/-- Witness for C2 at the modelled registry key list. -/
theorem base_excluded_from_objectives_witness :
    ("base" ∉ OBJECTIVES BALANCE_CALCULATORS_keys ∧
      ∀ k ∈ BALANCE_CALCULATORS_keys, k ≠ "base" →
        k ∈ OBJECTIVES BALANCE_CALCULATORS_keys) :=
  base_excluded_from_objectives BALANCE_CALCULATORS_keys (by decide) (by decide)

/-- C8: for every balance-calculator variant in the registry, the
statistic is well-defined when the populations have zero variance in a
feature: it saturates at a defined sentinel — 0 imbalance when both
populations are constant and equal in mean, maximal imbalance otherwise
— and on two identical populations it returns the minimum-imbalance
sentinel 0. -/
theorem zero_variance_saturates (c : String × (List Rat → List Rat → Rat))
    (hc : c ∈ BALANCE_CALCULATORS) (xs ys : List Rat)
    (hvx : svar xs = 0) (hvy : svar ys = 0) :
    (mean xs = mean ys → c.2 xs ys = 0) ∧
      (mean xs ≠ mean ys → c.2 xs ys = imbalanceMax) ∧
      (∀ zs : List Rat, c.2 zs zs = 0) := by
  have hcalc : c.2 = smdScore := by
    simp only [BALANCE_CALCULATORS, List.mem_cons, List.mem_singleton] at hc
    rcases hc with rfl | rfl | h
    · rfl
    · rfl
    · simp at h
  rw [hcalc]
  refine ⟨?_, ?_, ?_⟩
  · intro h
    simp [smdScore, guardedStat, hvx, hvy, h, sub_self]
  · intro h
    have hnum : (mean xs - mean ys) ^ 2 ≠ 0 := pow_ne_zero _ (sub_ne_zero.mpr h)
    simp [smdScore, guardedStat, hvx, hvy, hnum]
  · intro zs
    simp [smdScore, guardedStat, sub_self]

/-- Witness for C8: the `"smd"` variant on the constant columns `[1, 1]`
and `[2, 2]`. -/
theorem zero_variance_saturates_witness :
    ((mean ([1, 1] : List Rat) = mean ([2, 2] : List Rat) →
        smdScore [1, 1] [2, 2] = 0) ∧
      (mean ([1, 1] : List Rat) ≠ mean ([2, 2] : List Rat) →
        smdScore [1, 1] [2, 2] = imbalanceMax) ∧
      (∀ zs : List Rat, smdScore zs zs = 0)) ∧
      smdScore [1, 1] [2, 2] = imbalanceMax :=
  have h := zero_variance_saturates ("smd", smdScore) (by simp [BALANCE_CALCULATORS])
    [1, 1] [2, 2] (by norm_num [svar, mean, rsum]) (by norm_num [svar, mean, rsum])
  ⟨h, h.2.1 (by norm_num [mean, rsum])⟩

/-- C5: copy independence — if `m` lives at reference `r`, then after
`copyRef` produces a fresh reference `r₁`, the copy holds the same
value, and appending to the copy — or applying any mutating write to the
copy's reference — leaves the original reference still holding exactly
`m`, so every observable view of the original (records, schema,
per-population counts) is unchanged. -/
theorem copy_independence (s : Store) (r : Ref) (m : MatchingData)
    (h : s.get r = some m) :
    (copyRef s r).1.get (copyRef s r).2 = some m ∧
    (∀ v : MatchingData, ((copyRef s r).1.set (copyRef s r).2 v).get r = some m) ∧
    (∀ rows : List Record,
      (appendRef (copyRef s r).1 (copyRef s r).2 rows).get r = some m ∧
      ((appendRef (copyRef s r).1 (copyRef s r).2 rows).get r).map
          MatchingData.counts = some m.counts) := by
  have hr : r < s.cells.length := (List.getElem?_eq_some.mp h).1
  have hcopy : copyRef s r = (⟨s.cells ++ [m]⟩, s.cells.length) := by
    simp [copyRef, h, Store.alloc, MatchingData.copy]
  have hne : s.cells.length ≠ r := Nat.ne_of_gt hr
  have hset : ∀ v : MatchingData,
      ((copyRef s r).1.set (copyRef s r).2 v).get r = some m := by
    intro v
    rw [hcopy]
    show ((s.cells ++ [m]).set s.cells.length v)[r]? = some m
    rw [List.getElem?_set_ne hne, List.getElem?_append_left hr]
    exact h
  have hget₁ : (copyRef s r).1.get (copyRef s r).2 = some m := by
    rw [hcopy]
    exact List.getElem?_concat_length s.cells m
  refine ⟨hget₁, hset, ?_⟩
  intro rows
  have happ : appendRef (copyRef s r).1 (copyRef s r).2 rows =
      (copyRef s r).1.set (copyRef s r).2 (m.append rows) := by
    unfold appendRef
    rw [hget₁]
  rw [happ, hset (m.append rows)]
  exact ⟨rfl, rfl⟩

/-- Witness for C5: the one-cell example store. -/
theorem copy_independence_witness :
    (exampleStore.get 0 = some exampleMD) ∧
      ((copyRef exampleStore 0).1.get (copyRef exampleStore 0).2 = some exampleMD ∧
      (∀ v : MatchingData,
        ((copyRef exampleStore 0).1.set (copyRef exampleStore 0).2 v).get 0 =
          some exampleMD) ∧
      (∀ rows : List Record,
        (appendRef (copyRef exampleStore 0).1 (copyRef exampleStore 0).2 rows).get 0 =
          some exampleMD ∧
        ((appendRef (copyRef exampleStore 0).1 (copyRef exampleStore 0).2 rows).get 0).map
            MatchingData.counts = some exampleMD.counts)) :=
  ⟨rfl, copy_independence exampleStore 0 exampleMD rfl⟩

/-- C6: the search loop exits as soon as iterations reach `max_iter` or
elapsed time reaches `time_limit`, whichever comes first: it performs at
most `max_iter` iterations, every iteration it starts begins strictly
under the time budget (the budget is checked only at iteration
boundaries, so a single over-budget iteration completes), and on exit
either the iteration budget is exhausted or the elapsed time has reached
the limit. -/
theorem search_budget_termination (dur : Nat → Nat) (max_iter time_limit : Nat) :
    numIters dur time_limit max_iter ≤ max_iter ∧
      (∀ k, k < numIters dur time_limit max_iter →
        elapsedAfter dur k < time_limit) ∧
      (numIters dur time_limit max_iter = max_iter ∨
        time_limit ≤ elapsedAfter dur (numIters dur time_limit max_iter)) ∧
      (∀ outcome, (runIters outcome (numIters dur time_limit max_iter)).iters =
        numIters dur time_limit max_iter) := by
  have hle := stopIter_le dur time_limit max_iter 0
  have hspec := stopIter_spec dur time_limit max_iter 0
  refine ⟨by simpa using hle, ?_, by simpa using hspec.2,
    fun outcome => runIters_iters outcome _⟩
  intro k hk
  exact hspec.1 k (Nat.zero_le k) hk

/-- Witness for C6: one-second iterations under a two-second limit with a
five-iteration cap stop after two iterations, the second having started
under budget. -/
theorem search_budget_termination_witness :
    numIters (fun _ => 1) 2 5 ≤ 5 ∧ elapsedAfter (fun _ => 1) 1 < 2 :=
  ⟨(search_budget_termination (fun _ => 1) 5 2).1,
    (search_budget_termination (fun _ => 1) 5 2).2.1 1 (by decide)⟩

/-- C7: with the same seed, the same `max_iter`, and a `time_limit`
large enough that every iteration starts under budget (so `max_iter` is
exhausted first), two runs of the search loop produce identical results
— in particular the identical best hyperparameter set and matched-record
set — and within a run a candidate replaces the incumbent only on
strictly lower loss, ties keeping the earlier result. -/
theorem search_deterministic_on_budget_exhaustion
    (fit : Nat → Nat → Except String Candidate) (dur : Nat → Nat)
    (max_iter time_limit seed₁ seed₂ : Nat)
    (hseed : seed₁ = seed₂)
    (hbudget : ∀ k, k < max_iter → elapsedAfter dur k < time_limit) :
    searchWithSeed fit seed₁ dur max_iter time_limit =
        searchWithSeed fit seed₂ dur max_iter time_limit ∧
      numIters dur time_limit max_iter = max_iter ∧
      (∀ b c : Candidate, c.loss < b.loss → updateBest (some b) c = some c) ∧
      (∀ b c : Candidate, ¬c.loss < b.loss → updateBest (some b) c = some b) := by
  refine ⟨by rw [hseed], ?_, ?_, ?_⟩
  · have hle : numIters dur time_limit max_iter ≤ max_iter := by
      simpa using stopIter_le dur time_limit max_iter 0
    rcases (by simpa using (stopIter_spec dur time_limit max_iter 0).2 :
        numIters dur time_limit max_iter = max_iter ∨
          time_limit ≤ elapsedAfter dur (numIters dur time_limit max_iter)) with h | h
    · exact h
    · rcases Nat.eq_or_lt_of_le hle with heq | hlt
      · exact heq
      · exact absurd h (Nat.not_le_of_lt (hbudget _ hlt))
  · intro b c h
    simp only [updateBest]
    rw [if_pos h]
  · intro b c h
    simp only [updateBest]
    rw [if_neg h]

/-- Witness for C7: a constant-success fit, zero-duration iterations, a
two-iteration cap under a one-second limit, and equal seeds. -/
theorem search_deterministic_witness :
    searchWithSeed (fun _ _ => .ok ⟨0, 0, []⟩) 3 (fun _ => 0) 2 1 =
        searchWithSeed (fun _ _ => .ok ⟨0, 0, []⟩) 3 (fun _ => 0) 2 1 ∧
      numIters (fun _ => 0) 1 2 = 2 ∧
      updateBest (some ⟨0, 2, []⟩) ⟨1, 1, []⟩ = some ⟨1, 1, []⟩ ∧
      updateBest (some ⟨0, 1, []⟩) ⟨1, 1, []⟩ = some ⟨0, 1, []⟩ :=
  have h := search_deterministic_on_budget_exhaustion
    (fun _ _ => .ok ⟨0, 0, []⟩) (fun _ => 0) 2 1 3 3 rfl (by decide)
  ⟨h.1, h.2.1, h.2.2.1 ⟨0, 2, []⟩ ⟨1, 1, []⟩ (by decide),
    h.2.2.2 ⟨0, 1, []⟩ ⟨1, 1, []⟩ (by decide)⟩

/-- C9: the search loop surfaces an error to the caller if and only if
zero iterations completed successfully: it returns the
`SearchExhaustedError` carrying the most recent `FitError` exactly when
the success count is zero, and otherwise returns the aggregate result in
which per-iteration failures were swallowed and counted. -/
theorem search_error_iff_all_fits_failed
    (outcome : Nat → Except String Candidate) (dur : Nat → Nat)
    (max_iter time_limit : Nat) :
    (searchLoop outcome dur max_iter time_limit =
        .error (runIters outcome (numIters dur time_limit max_iter)).lastErr ↔
      (runIters outcome (numIters dur time_limit max_iter)).succ = 0) ∧
      ((runIters outcome (numIters dur time_limit max_iter)).succ ≠ 0 →
        searchLoop outcome dur max_iter time_limit =
          .ok (runIters outcome (numIters dur time_limit max_iter))) := by
  by_cases h : (runIters outcome (numIters dur time_limit max_iter)).succ = 0
  · refine ⟨⟨fun _ => h, fun _ => ?_⟩, fun hne => absurd h hne⟩
    simp [searchLoop, h]
  · have hok : searchLoop outcome dur max_iter time_limit =
        .ok (runIters outcome (numIters dur time_limit max_iter)) := by
      simp [searchLoop, h]
    refine ⟨⟨fun herr => ?_, fun h0 => absurd h0 h⟩, fun _ => hok⟩
    rw [hok] at herr
    exact absurd herr (by simp)

/-- Witness for C9: one failed fit followed by one successful fit — the
failure is swallowed and the loop returns the aggregate result. -/
theorem search_error_iff_witness :
    (runIters
        (fun k => if k = 0 then .error "FitError" else .ok ⟨1, 0, []⟩)
        (numIters (fun _ => 0) 1 2)).succ ≠ 0 ∧
      searchLoop (fun k => if k = 0 then .error "FitError" else .ok ⟨1, 0, []⟩)
          (fun _ => 0) 2 1 =
        .ok (runIters
          (fun k => if k = 0 then .error "FitError" else .ok ⟨1, 0, []⟩)
          (numIters (fun _ => 0) 1 2)) :=
  ⟨by decide,
    (search_error_iff_all_fits_failed
      (fun k => if k = 0 then .error "FitError" else .ok ⟨1, 0, []⟩)
      (fun _ => 0) 2 1).2 (by decide)⟩

/-- C1: when `PropensityScoreMatcher.match()` returns a `MatchingData`,
that output holds exactly the best candidate's matched target and pool
records, every output record is a record of the input with its
population label unchanged, the schema and label column are unchanged,
and the `" (postmatch)"` relabeling is a separate caller-side operation,
not performed by the engine. -/
theorem matcher_match_unrelabeled_subset
    (m : MatchingData) (outcome : Nat → Except String Candidate)
    (dur : Nat → Nat) (max_iter time_limit : Nat) (out : MatchingData)
    (h : matcherMatch m outcome dur max_iter time_limit = .ok out) :
    out.population_col = m.population_col ∧
      out.headers_numeric = m.headers_numeric ∧
      out.headers_categoric = m.headers_categoric ∧
      (∀ rec ∈ out.data, rec ∈ m.data) ∧
      (∃ r, searchLoop outcome dur max_iter time_limit = .ok r ∧
        out = selectRecords m ((r.best.map Candidate.matched).getD [])) ∧
      (relabelPostmatch out).data =
        out.data.map (fun rec =>
          { rec with population := rec.population ++ " (postmatch)" }) := by
  unfold matcherMatch at h
  cases hs : searchLoop outcome dur max_iter time_limit with
  | error e =>
    rw [hs] at h
    simp [Except.map] at h
  | ok r =>
    rw [hs] at h
    simp only [Except.map, Except.ok.injEq] at h
    subst h
    refine ⟨rfl, rfl, rfl, ?_, ⟨r, rfl, rfl⟩, rfl⟩
    intro rec hrec
    rcases List.mem_filterMap.mp hrec with ⟨i, _, hget⟩
    exact List.getElem?_mem hget

/-- Witness for C1: a single-iteration search on the one-record example
data, matching record 0. -/
theorem matcher_match_witness :
    matcherMatch exampleMD (fun _ => .ok ⟨0, 0, [0]⟩) (fun _ => 0) 1 1 =
        .ok (selectRecords exampleMD [0]) ∧
      (selectRecords exampleMD [0]).population_col = exampleMD.population_col ∧
      (∀ rec ∈ (selectRecords exampleMD [0]).data, rec ∈ exampleMD.data) :=
  have h : matcherMatch exampleMD (fun _ => .ok ⟨0, 0, [0]⟩) (fun _ => 0) 1 1 =
      .ok (selectRecords exampleMD [0]) := rfl
  ⟨h,
    (matcher_match_unrelabeled_subset exampleMD (fun _ => .ok ⟨0, 0, [0]⟩)
      (fun _ => 0) 1 1 (selectRecords exampleMD [0]) h).1,
    (matcher_match_unrelabeled_subset exampleMD (fun _ => .ok ⟨0, 0, [0]⟩)
      (fun _ => 0) 1 1 (selectRecords exampleMD [0]) h).2.2.2.1⟩

/-- C10: every `match` invocation reachable from the dashboard
constructs `PropensityScoreMatcher` with assignment method `"greedy"`
and hyperparameter grid `None`, regardless of the session state. -/
theorem dashboard_method_greedy_grid_none (s : SessionState) :
    (dashboardMatcherArgs s).method = "greedy" ∧
      (dashboardMatcherArgs s).hyperparameter_grid = none :=
  ⟨rfl, rfl⟩
